import Mathlib

/-!
Verification of the LipiPala speech-recognition core against its specification.

The repository contains two flavors of `SpeechRecognitionService`:

* a lazy-loading one in `lipipala/core/speech/service.py` (models are resolved
  and cached on first use), and
* an eager one in `lipipala/core/speech_recognition.py` (all enabled models are
  loaded at construction time; exposes batch transcription, language listing,
  health and stats).

Both are embedded below as pure functions over explicit state.  External
effects (the filesystem, audio decoding, JSON parsing and the torch model
runtime) are passed in as explicit parameters, so every theorem quantifies
over them.
-/

set_option linter.unusedVariables false
set_option linter.unnecessarySeqFocus false

deriving instance DecidableEq for Except

namespace LipiPala

/-! ## Generic helpers -/

/-- Keys of an association list (the keys of a Python dict modelled as a list
of pairs). -/
def keys {α : Type} (l : List (String × α)) : List String :=
  l.map Prod.fst

theorem lookup_none_of_not_mem_keys {α : Type} {l : List (String × α)} {k : String}
    (h : k ∉ keys l) : List.lookup k l = none := by
  induction l with
  | nil => rfl
  | cons p t ih =>
      simp only [keys, List.map_cons, List.mem_cons, not_or] at h
      have hk : (k == p.1) = false := by
        simp only [beq_eq_false_iff_ne, ne_eq]
        exact h.1
      simp only [List.lookup, hk]
      exact ih (by simpa [keys] using h.2)

theorem mem_keys_of_lookup_some {α : Type} {l : List (String × α)} {k : String} {v : α}
    (h : List.lookup k l = some v) : k ∈ keys l := by
  by_contra hk
  rw [lookup_none_of_not_mem_keys hk] at h
  exact Option.noConfusion h

/-! ## Filesystem and configuration model -/

/-- The filesystem as seen by the service: which directories and files exist,
and the immediate subdirectories of a directory (what `Path.iterdir` filtered
by `is_dir()` yields). -/
structure FileSystem where
  dirExists : String → Bool
  fileExists : String → Bool
  subdirs : String → List String

/-- `SpeechRecognitionSettings` from `lipipala/config.py` (the fields the core
consumes). -/
structure SRConfig where
  models_dir : String
  enabled_languages : List String
  languages_metadata_path : String
  sample_rate : Nat
  n_mels : Nat
  n_fft : Nat
  hop_length : Nat

/-- `models_dir / lang_code / model.pt`. -/
def modelPath (models_dir lang_code : String) : String :=
  models_dir ++ "/" ++ lang_code ++ "/model.pt"

/-- `models_dir / lang_code / config.json`. -/
def configPath (models_dir lang_code : String) : String :=
  models_dir ++ "/" ++ lang_code ++ "/config.json"

/-! ## The lazy service (`lipipala/core/speech/service.py`) -/

/-- The error taxonomy of `lipipala/core/speech/exceptions.py`.  Each
constructor carries the language code (resp. audio path) that the exception
message of the source interpolates; the surrounding message text is elided. -/
inductive LazyError where
  | languageNotSupported (lang : String)
  | modelLoadFailure (lang : String)
  | audioProcessing (path : String)
deriving DecidableEq, Repr

/-- The model object held in the lazy service cache.  The source constructs a
placeholder dictionary here, with a comment to replace it by a real model
object; only its identity matters to the registry. -/
structure LazyModel where
  model_type : String
  lang : String
deriving DecidableEq, Repr

/-- State of the lazy `SpeechRecognitionService`: the model cache
(`self._models`), the discovered languages (`self._available_languages`) and
the configured model root. -/
structure LazyService where
  models : List (String × LazyModel)
  available_languages : List String
  models_dir : String
deriving DecidableEq, Repr

/-- `SpeechRecognitionService._find_available_languages`: the names of the
immediate subdirectories of the model root, or the empty list (plus a warning)
when the root does not exist. -/
def findAvailableLanguages (fs : FileSystem) (models_dir : String) : List String :=
  if fs.dirExists models_dir then fs.subdirs models_dir else []

/-- `SpeechRecognitionService.__init__`: an empty cache and the discovered
languages. -/
def mkLazyService (fs : FileSystem) (config : SRConfig) : LazyService :=
  { models := []
    available_languages := findAvailableLanguages fs config.models_dir
    models_dir := config.models_dir }

/-- `SpeechRecognitionService._load_model`.  `loadBody` is the body of the
`try` block (construction and initialization of the model object); any failure
it reports is wrapped as `ModelLoadError` exactly as the `except` clause does.
The committed body is `loadBodyImpl` below.  The function returns the result
together with the state after the call (the cache gains an entry only on the
success path, as in the source). -/
def _load_model (loadBody : String → Except String LazyModel) (fs : FileSystem)
    (s : LazyService) (lang_code : String) :
    Except LazyError LazyModel × LazyService :=
  match List.lookup lang_code s.models with
  | some m => (.ok m, s)
  | none =>
    if lang_code ∈ s.available_languages then
      if fs.fileExists (modelPath s.models_dir lang_code) then
        match loadBody lang_code with
        | .ok model =>
            (.ok model, { s with models := (lang_code, model) :: s.models })
        | .error _ => (.error (.modelLoadFailure lang_code), s)
      else
        (.error (.modelLoadFailure lang_code), s)
    else
      (.error (.languageNotSupported lang_code), s)

/-- The committed body of the load step: it builds a plain dictionary
(`\x7b"type": "dummy_model", "lang": lang_code\x7d`) and then calls `.eval()`
on it, which raises `AttributeError` since a dict has no `eval` method, so the
block always fails. -/
def loadBodyImpl : String → Except String LazyModel :=
  fun _ => .error "AttributeError: dict object has no attribute eval"

/-- `SpeechRecognitionService._load_model` exactly as committed. -/
def _load_model_impl (fs : FileSystem) (s : LazyService) (lang_code : String) :
    Except LazyError LazyModel × LazyService :=
  _load_model loadBodyImpl fs s lang_code

/-- The result dictionary of `transcribe` in the lazy service. -/
structure LazyTranscription where
  language : String
  text : String
  confidence : ℚ
  audio_duration : ℚ
deriving DecidableEq, Repr

/-- `SpeechRecognitionService.transcribe` of the lazy service: resolve the
model, then produce the placeholder transcription, confidence `0.95` and
duration `10.5` (the audio-processing block of the source consists of constant
assignments and cannot fail). -/
def lazyTranscribe (loadBody : String → Except String LazyModel) (fs : FileSystem)
    (s : LazyService) (audio_path language : String) :
    Except LazyError LazyTranscription × LazyService :=
  match _load_model loadBody fs s language with
  | (.error e, s') => (.error e, s')
  | (.ok _, s') =>
      (.ok { language := language
             text := "This is a dummy transcription for " ++ language ++ "."
             confidence := 95 / 100
             audio_duration := 21 / 2 }, s')

/-! ## The eager service (`lipipala/core/speech_recognition.py`) -/

/-- Modelled from the spec: the acoustic model class `ASRModel` lives in
`lipipala/models/asr_model.py`, which is not under `src/`.  Per the spec it is
"treated as an opaque inference unit" with a single forward pass producing a
score distribution, plus a decode step producing the text. -/
structure ASRModel where
  infer : List (List ℚ) → List ℚ
  decode : List ℚ → String

/-- Modelled from the spec: `AudioPreprocessor` lives in
`lipipala/preprocessing/audio.py`, which is not under `src/`.  Per the spec it
holds the DSP configuration (`sampleRate`, `nMels`, `nFft`, `hopLength`) and
deterministically turns a sample buffer into a feature matrix, failing on
inputs shorter than one analysis window. -/
structure AudioPreprocessor where
  sample_rate : Nat
  n_mels : Nat
  n_fft : Nat
  hop_length : Nat
  process : List ℚ → Except String (List (List ℚ))

/-- The metadata JSON entry of one language.  Every field is optional:
the source reads each with `dict.get(field, default)`. -/
structure LangMetadata where
  name : Option String
  family : Option String
  script : Option String
  endangerment_level : Option String
  regions : Option (List String)
deriving DecidableEq, Repr

/-- The exceptions the eager service can raise from a request: the
`ValueError` for an unsupported language, the `FileNotFoundError` of
`_load_audio`, decoding/preprocessing failures propagated by the bare
`raise`, and runtime errors of the torch calls. -/
inductive EagerError where
  | valueError (msg : String)
  | fileNotFound (path : String)
  | audioError (msg : String)
  | runtimeError (msg : String)
deriving DecidableEq, Repr

/-- `str(e)` of an eager-service exception, as stored in a batch error
record. -/
def errStr : EagerError → String
  | .valueError msg => msg
  | .fileNotFound path => "Audio file not found: " ++ path
  | .audioError msg => msg
  | .runtimeError msg => msg

/-- State of the eager `SpeechRecognitionService`: the models loaded at
construction (`self.models`), the language metadata
(`self.languages_metadata`) and the preprocessor. -/
structure EagerService where
  models : List (String × ASRModel)
  languages_metadata : List (String × LangMetadata)
  preprocessor : AudioPreprocessor

/-- Absolute value on the rationals, written out so that it evaluates by
kernel reduction. -/
def absQ (x : ℚ) : ℚ :=
  if 0 ≤ x then x else -x

/-- `librosa.util.normalize`: peak normalization of the sample buffer (divide
by the largest absolute amplitude; a silent buffer is returned unchanged).
Only the fact that it preserves the buffer length matters below. -/
def normalize (xs : List ℚ) : List ℚ :=
  let peak := (xs.map absQ).foldr (fun x acc => if x ≤ acc then acc else x) 0
  if peak = 0 then xs else xs.map (fun x => x / peak)

/-- `SpeechRecognitionService._load_audio`: a missing path raises
`FileNotFoundError`; otherwise the file is decoded and resampled to the
rate of the preprocessor (`decode`, standing for `librosa.load`, whose failures
propagate) and the result is peak-normalized. -/
def _load_audio (fs : FileSystem) (decodeAudio : String → Except String (List ℚ))
    (audio_path : String) : Except EagerError (List ℚ) :=
  if fs.fileExists audio_path then
    match decodeAudio audio_path with
    | .ok audio_data => .ok (normalize audio_data)
    | .error e => .error (.audioError e)
  else
    .error (.fileNotFound audio_path)

/-- `outputs.softmax(dim=-1)` on the score distribution of the model.  The
exponential is taken as a parameter `e`; only its strict positivity matters
for the properties proved here. -/
def softmaxWith (e : ℚ → ℚ) (xs : List ℚ) : List ℚ :=
  xs.map (fun x => e x / (xs.map e).sum)

/-- `tensor.max()`: the greatest entry of the score tensor; raises on an
empty tensor (the `none` case).  Written out so that it evaluates by kernel
reduction. -/
def tensorMax : List ℚ → Option ℚ
  | [] => none
  | x :: xs =>
    match tensorMax xs with
    | none => some x
    | some m => some (if x ≤ m then m else x)

/-- `metadata.get(code, \x7b\x7d).get(field, default)`. -/
def metaField {β : Type} (md : Option LangMetadata) (field : LangMetadata → Option β)
    (default : β) : β :=
  (md.bind field).getD default

/-- The dictionary returned by `transcribe` in the eager service. -/
structure TranscriptionResult where
  language : String
  language_name : String
  text : String
  confidence : ℚ
  audio_duration : ℚ
deriving DecidableEq, Repr

/-- `SpeechRecognitionService.transcribe` of the eager service: reject a
language with no loaded model (`ValueError`), load and preprocess the audio
(failures propagate), run the model, decode, and assemble the result with
`confidence = outputs.softmax(dim=-1).max()` and
`audio_duration = len(audio_data) / self.preprocessor.sample_rate`.
`torch.max` of an empty tensor raises, hence the `runtimeError` branch.  The
local variables `outputs` and `transcription` of the source are inlined. -/
def transcribe (fs : FileSystem) (decodeAudio : String → Except String (List ℚ))
    (e : ℚ → ℚ) (s : EagerService) (audio_path language : String) :
    Except EagerError TranscriptionResult :=
  match List.lookup language s.models with
  | none => .error (.valueError ("Language " ++ language ++
      " is not supported for transcription"))
  | some model =>
    match _load_audio fs decodeAudio audio_path with
    | .error err => .error err
    | .ok audio_data =>
      match s.preprocessor.process audio_data with
      | .error err => .error (.audioError err)
      | .ok features =>
        match tensorMax (softmaxWith e (model.infer features)) with
        | none => .error (.runtimeError "max of empty tensor")
        | some conf =>
          .ok { language := language
                language_name :=
                  metaField (List.lookup language s.languages_metadata)
                    LangMetadata.name language
                text := model.decode (model.infer features)
                confidence := conf
                audio_duration :=
                  (audio_data.length : ℚ) / (s.preprocessor.sample_rate : ℚ) }

/-- One slot of a batch result: either a successful transcription or the
error record `\x7blanguage, error, audio_path\x7d`. -/
inductive BatchItem where
  | success (r : TranscriptionResult)
  | failure (language : String) (error : String) (audio_path : String)
deriving DecidableEq, Repr

/-- The body of the `batch_transcribe` loop: transcribe one path, catching
any exception into an error record. -/
def transcribeSlot (fs : FileSystem) (decodeAudio : String → Except String (List ℚ))
    (e : ℚ → ℚ) (s : EagerService) (language audio_path : String) : BatchItem :=
  match transcribe fs decodeAudio e s audio_path language with
  | .ok r => .success r
  | .error err => .failure language (errStr err) audio_path

/-- `SpeechRecognitionService.batch_transcribe`: each path is transcribed
independently, in order, appending either the result or an error record. -/
def batch_transcribe (fs : FileSystem) (decodeAudio : String → Except String (List ℚ))
    (e : ℚ → ℚ) (s : EagerService) (audio_paths : List String) (language : String) :
    List BatchItem :=
  audio_paths.map (fun audio_path => transcribeSlot fs decodeAudio e s language audio_path)

/-- One entry of `get_supported_languages`. -/
structure LangInfo where
  code : String
  name : String
  family : String
  script : String
  endangerment_level : String
  regions : List String
deriving DecidableEq, Repr

/-- The `lang_info` dictionary built for one loaded language: each field falls
back to its default when the metadata entry or the field is absent. -/
def langInfoFor (languages_metadata : List (String × LangMetadata))
    (lang_code : String) : LangInfo :=
  let md := List.lookup lang_code languages_metadata
  { code := lang_code
    name := metaField md LangMetadata.name lang_code
    family := metaField md LangMetadata.family "Unknown"
    script := metaField md LangMetadata.script "Unknown"
    endangerment_level := metaField md LangMetadata.endangerment_level "Unknown"
    regions := metaField md LangMetadata.regions [] }

/-- `SpeechRecognitionService.get_supported_languages`: one metadata-joined
entry per loaded model, in cache order.  A total function: it cannot raise. -/
def get_supported_languages (s : EagerService) : List LangInfo :=
  s.models.map (fun p => langInfoFor s.languages_metadata p.1)

/-- The per-language body of the `_load_models` loop: skip the language when
either artifact file is missing (warning) and when the load itself fails
(logged error); otherwise produce the model.  `loader` stands for the part of
the loop body that reads the config JSON and constructs, restores and `eval`s
the `ASRModel` (that class is not under `src/`); any exception it raises is
caught and skipped. -/
def tryLoadModel (fs : FileSystem) (loader : String → Except String ASRModel)
    (models_dir lang_code : String) : Option ASRModel :=
  if fs.fileExists (modelPath models_dir lang_code) &&
      fs.fileExists (configPath models_dir lang_code) then
    match loader lang_code with
    | .ok model => some model
    | .error _ => none
  else
    none

/-- The `for` loop of `_load_models` over an already-determined language
list. -/
def loadEnabled (fs : FileSystem) (loader : String → Except String ASRModel)
    (models_dir : String) (langs : List String) : List (String × ASRModel) :=
  langs.filterMap (fun lang_code =>
    (tryLoadModel fs loader models_dir lang_code).map (fun m => (lang_code, m)))

/-- `SpeechRecognitionService._load_models`: when no languages are explicitly
enabled and the model root exists, every subdirectory is attempted; each
language loads independently. -/
def _load_models (fs : FileSystem) (loader : String → Except String ASRModel)
    (models_dir : String) (enabled_languages : List String) :
    List (String × ASRModel) :=
  let enabled :=
    if enabled_languages.isEmpty && fs.dirExists models_dir then
      fs.subdirs models_dir
    else
      enabled_languages
  loadEnabled fs loader models_dir enabled

/-- `SpeechRecognitionService._load_languages_metadata`: a missing file or a
parse failure yields the empty mapping (with a warning); `parse` stands for
reading and `json.load`-ing the file. -/
def _load_languages_metadata (fs : FileSystem)
    (parse : String → Except String (List (String × LangMetadata)))
    (metadata_path : String) : List (String × LangMetadata) :=
  if fs.fileExists metadata_path then
    match parse metadata_path with
    | .ok metadata => metadata
    | .error _ => []
  else
    []

/-- `SpeechRecognitionService.__init__` of the eager service: build the
preprocessor from the configuration, load the metadata, then load the models
for all enabled languages. -/
def mkService (fs : FileSystem) (loader : String → Except String ASRModel)
    (parse : String → Except String (List (String × LangMetadata)))
    (process : List ℚ → Except String (List (List ℚ))) (config : SRConfig) :
    EagerService :=
  { models := _load_models fs loader config.models_dir config.enabled_languages
    languages_metadata :=
      _load_languages_metadata fs parse config.languages_metadata_path
    preprocessor :=
      { sample_rate := config.sample_rate
        n_mels := config.n_mels
        n_fft := config.n_fft
        hop_length := config.hop_length
        process := process } }

/-- `SpeechRecognitionService.is_healthy`: `len(self.models) > 0`. -/
def is_healthy (s : EagerService) : Bool :=
  decide (0 < s.models.length)

/-! ## Concrete fixtures (used by the witnesses below) -/

/-- A filesystem holding exactly the weights file of language `kho` (no config
file, no metadata file). -/
def fsWeightsOnly : FileSystem :=
  { dirExists := fun _ => false
    fileExists := fun p => p == "models/asr/kho/model.pt"
    subdirs := fun _ => [] }

/-- A filesystem with no files at all and an empty model root directory. -/
def fsEmpty : FileSystem :=
  { dirExists := fun d => d == "models/asr"
    fileExists := fun _ => false
    subdirs := fun _ => [] }

/-- A filesystem where every file and directory exists. -/
def fsFull : FileSystem :=
  { dirExists := fun _ => true
    fileExists := fun _ => true
    subdirs := fun _ => ["kho"] }

/-- A lazy service that discovered exactly the language `kho` and has an empty
cache. -/
def lazyS : LazyService :=
  { models := []
    available_languages := ["kho"]
    models_dir := "models/asr" }

/-- A concrete model: two output scores, constant decoded text. -/
def m0 : ASRModel :=
  { infer := fun _ => [0, 1]
    decode := fun _ => "hello" }

/-- The default DSP configuration with a trivial one-frame feature
extractor. -/
def pre0 : AudioPreprocessor :=
  { sample_rate := 16000
    n_mels := 80
    n_fft := 400
    hop_length := 160
    process := fun xs => .ok [xs] }

/-- An eager service with one loaded model for `kho` and no metadata. -/
def s0 : EagerService :=
  { models := [("kho", m0)]
    languages_metadata := []
    preprocessor := pre0 }

/-- A filesystem where only `a.wav` exists. -/
def fs0 : FileSystem :=
  { dirExists := fun _ => true
    fileExists := fun p => p == "a.wav"
    subdirs := fun _ => ["kho"] }

/-- A decoder returning a fixed two-sample buffer for every file. -/
def dec0 : String → Except String (List ℚ) := fun _ => .ok [0, 1 / 2]

/-- A concrete (abstract-exponential) parameter for the softmax. -/
def e0 : ℚ → ℚ := fun _ => 1

/-- The transcription the eager fixture produces for `a.wav` in `kho`. -/
def r0 : TranscriptionResult :=
  { language := "kho"
    language_name := "kho"
    text := "hello"
    confidence := 1 / 2
    audio_duration := 1 / 8000 }

/-- A model loader failing exactly for the language `bad`. -/
def loader0 : String → Except String ASRModel :=
  fun lang_code => if lang_code == "bad" then .error "boom" else .ok m0

/-- A metadata parser yielding the empty mapping. -/
def parse0 : String → Except String (List (String × LangMetadata)) :=
  fun _ => .ok []

/-- The default configuration of `SpeechRecognitionSettings`. -/
def cfg0 : SRConfig :=
  { models_dir := "models/asr"
    enabled_languages := []
    languages_metadata_path := "data/languages/metadata.json"
    sample_rate := 16000
    n_mels := 80
    n_fft := 400
    hop_length := 160 }

/-! ## Helper lemmas about the lazy resolver -/

theorem _load_model_cases (loadBody : String → Except String LazyModel)
    (fs : FileSystem) (s : LazyService) (lang_code : String) :
    (∃ m, List.lookup lang_code s.models = some m ∧
        _load_model loadBody fs s lang_code = (.ok m, s)) ∨
    (∃ m, List.lookup lang_code s.models = none ∧ lang_code ∈ s.available_languages ∧
        _load_model loadBody fs s lang_code =
          (.ok m, { s with models := (lang_code, m) :: s.models })) ∨
    (∃ err, _load_model loadBody fs s lang_code = (.error err, s)) := by
  unfold _load_model
  cases hc : List.lookup lang_code s.models with
  | some m => exact Or.inl ⟨m, rfl, rfl⟩
  | none =>
    by_cases ha : lang_code ∈ s.available_languages
    · rw [if_pos ha]
      cases hw : fs.fileExists (modelPath s.models_dir lang_code) with
      | false => exact Or.inr (Or.inr ⟨.modelLoadFailure lang_code, by simp⟩)
      | true =>
        cases hl : loadBody lang_code with
        | ok m => exact Or.inr (Or.inl ⟨m, rfl, ha, by simp⟩)
        | error msg => exact Or.inr (Or.inr ⟨.modelLoadFailure lang_code, by simp⟩)
    · rw [if_neg ha]
      exact Or.inr (Or.inr ⟨.languageNotSupported lang_code, rfl⟩)

/-! ## Helper lemmas about the eager pipeline -/

theorem tensorMax_mem : ∀ {xs : List ℚ} {m : ℚ}, tensorMax xs = some m → m ∈ xs := by
  intro xs
  induction xs with
  | nil => intro m h; exact Option.noConfusion h
  | cons x t ih =>
    intro m h
    rw [tensorMax] at h
    cases ht : tensorMax t with
    | none =>
      rw [ht] at h
      injection h with h2
      subst h2
      exact List.mem_cons_self x t
    | some m2 =>
      rw [ht] at h
      injection h with h2
      subst h2
      split
      · exact List.mem_cons_of_mem x (ih ht)
      · exact List.mem_cons_self x t

theorem softmaxWith_mem_unit_interval (e : ℚ → ℚ) (he : ∀ x, 0 < e x)
    (xs : List ℚ) (c : ℚ) (hc : c ∈ softmaxWith e xs) : 0 ≤ c ∧ c ≤ 1 := by
  simp only [softmaxWith, List.mem_map] at hc
  obtain ⟨x, hx, rfl⟩ := hc
  have hmem : e x ∈ xs.map e := List.mem_map_of_mem e hx
  have hnn : ∀ y ∈ xs.map e, 0 ≤ y := by
    intro y hy
    obtain ⟨z, _, rfl⟩ := List.mem_map.mp hy
    exact (he z).le
  have hle : e x ≤ (xs.map e).sum := List.single_le_sum hnn _ hmem
  have hsum : 0 < (xs.map e).sum := lt_of_lt_of_le (he x) hle
  exact ⟨div_nonneg (he x).le hsum.le, (div_le_one hsum).mpr hle⟩

theorem normalize_length (xs : List ℚ) : (normalize xs).length = xs.length := by
  by_cases hp : (xs.map absQ).foldr (fun x acc => if x ≤ acc then acc else x) 0 = 0 <;>
    simp [normalize, hp]

/-- Anatomy of a successful eager transcription: the model was looked up, the
audio loaded, the features extracted, the confidence is the greatest softmax
entry, and the result record is assembled exactly as in the source. -/
theorem transcribe_ok_elim (fs : FileSystem)
    (decodeAudio : String → Except String (List ℚ)) (e : ℚ → ℚ)
    (s : EagerService) (audio_path language : String) (r : TranscriptionResult)
    (h : transcribe fs decodeAudio e s audio_path language = .ok r) :
    ∃ model audio_data features conf,
      List.lookup language s.models = some model ∧
      _load_audio fs decodeAudio audio_path = .ok audio_data ∧
      s.preprocessor.process audio_data = .ok features ∧
      tensorMax (softmaxWith e (model.infer features)) = some conf ∧
      r = { language := language
            language_name :=
              metaField (List.lookup language s.languages_metadata)
                LangMetadata.name language
            text := model.decode (model.infer features)
            confidence := conf
            audio_duration :=
              (audio_data.length : ℚ) / (s.preprocessor.sample_rate : ℚ) } := by
  unfold transcribe at h
  cases hm : List.lookup language s.models with
  | none => simp only [hm] at h; exact absurd h (by simp)
  | some model =>
    simp only [hm] at h
    cases hla : _load_audio fs decodeAudio audio_path with
    | error err => simp only [hla] at h; exact absurd h (by simp)
    | ok audio_data =>
      simp only [hla] at h
      cases hp : s.preprocessor.process audio_data with
      | error err => simp only [hp] at h; exact absurd h (by simp)
      | ok features =>
        simp only [hp] at h
        cases hmx : tensorMax (softmaxWith e (model.infer features)) with
        | none => simp only [hmx] at h; exact absurd h (by simp)
        | some conf =>
          simp only [hmx, Except.ok.injEq] at h
          exact ⟨model, audio_data, features, conf, rfl, rfl, hp, hmx, h.symm⟩

/-! ## Claim theorems: the lazy registry -/

/-- C1: a language code outside the discovered set resolves to
`LanguageNotSupported` — never `ModelLoadFailure` — whatever the load body,
the files on disk and the (reachably constrained) cache; the lazy `transcribe`
propagates the same error, and the eager `transcribe` likewise rejects a
language with no loaded model with its not-supported `ValueError`. -/
theorem unknown_language_never_model_load_failure
    (loadBody : String → Except String LazyModel) (fs fsE : FileSystem)
    (decodeAudio : String → Except String (List ℚ)) (e : ℚ → ℚ)
    (s : LazyService) (es : EagerService) (audio_path lang : String)
    (havail : lang ∉ s.available_languages)
    (hinv : ∀ k ∈ keys s.models, k ∈ s.available_languages)
    (hcache : lang ∉ keys es.models) :
    _load_model loadBody fs s lang = (.error (.languageNotSupported lang), s) ∧
    lazyTranscribe loadBody fs s audio_path lang =
      (.error (.languageNotSupported lang), s) ∧
    transcribe fsE decodeAudio e es audio_path lang =
      .error (.valueError ("Language " ++ lang ++
        " is not supported for transcription")) := by
  have hnone : List.lookup lang s.models = none :=
    lookup_none_of_not_mem_keys (fun hmem => havail (hinv _ hmem))
  have h1 : _load_model loadBody fs s lang = (.error (.languageNotSupported lang), s) := by
    unfold _load_model
    rw [hnone, if_neg havail]
  refine ⟨h1, ?_, ?_⟩
  · unfold lazyTranscribe
    rw [h1]
  · unfold transcribe
    rw [lookup_none_of_not_mem_keys hcache]

theorem unknown_language_never_model_load_failure_witness :
    ("zz" ∉ lazyS.available_languages ∧ "zz" ∉ keys s0.models) ∧
    _load_model loadBodyImpl fsWeightsOnly lazyS "zz" =
      (.error (.languageNotSupported "zz"), lazyS) ∧
    transcribe fs0 dec0 e0 s0 "a.wav" "zz" =
      .error (.valueError ("Language " ++ "zz" ++
        " is not supported for transcription")) := by
  have h := unknown_language_never_model_load_failure loadBodyImpl fsWeightsOnly fs0
    dec0 e0 lazyS s0 "a.wav" "zz" (by simp [lazyS]) (by simp [lazyS, keys])
    (by simp [s0, keys])
  exact ⟨⟨by simp [lazyS], by simp [s0, keys]⟩, h.1, h.2.2⟩

/-- C2: for a discovered language with a cold cache, the committed resolver
fails with `ModelLoadFailure` whenever the weights file or the config file is
missing (the missing weights file is detected explicitly; in every other case
the committed load body itself fails and is wrapped as `ModelLoadError`). -/
theorem missing_artifact_resolve_model_load_failure
    (fs : FileSystem) (s : LazyService) (lang : String)
    (hmiss : List.lookup lang s.models = none)
    (havail : lang ∈ s.available_languages)
    (hfile : fs.fileExists (modelPath s.models_dir lang) = false ∨
      fs.fileExists (configPath s.models_dir lang) = false) :
    _load_model_impl fs s lang = (.error (.modelLoadFailure lang), s) := by
  unfold _load_model_impl _load_model
  rw [hmiss, if_pos havail]
  cases hw : fs.fileExists (modelPath s.models_dir lang) <;>
    simp [hw, loadBodyImpl]

theorem missing_artifact_resolve_model_load_failure_witness :
    (List.lookup "kho" lazyS.models = none ∧ "kho" ∈ lazyS.available_languages ∧
      fsWeightsOnly.fileExists (configPath lazyS.models_dir "kho") = false) ∧
    _load_model_impl fsWeightsOnly lazyS "kho" =
      (.error (.modelLoadFailure "kho"), lazyS) := by
  refine ⟨⟨rfl, by simp [lazyS], by simp [fsWeightsOnly, configPath, lazyS]⟩, ?_⟩
  exact missing_artifact_resolve_model_load_failure fsWeightsOnly lazyS "kho" rfl
    (by simp [lazyS]) (Or.inr (by simp [fsWeightsOnly, configPath, lazyS]))

/-- C3 (code-bug evaluation): with the committed load body no resolve from a
cold cache can ever return a model — the placeholder dict passed to `.eval()`
raises, so "resolve(L) succeeds once" is unsatisfiable and the cache is never
populated; at the concrete failing input (language `kho` discovered, its
weights file present, empty cache) the resolver raises `ModelLoadError` and
leaves the cache empty. -/
theorem load_model_impl_cannot_succeed
    (fs : FileSystem) (s : LazyService) (lang : String) (m : LazyModel)
    (hmiss : List.lookup lang s.models = none) :
    (_load_model_impl fs s lang).1 ≠ .ok m ∧
    _load_model_impl fsWeightsOnly lazyS "kho" =
      (.error (.modelLoadFailure "kho"), lazyS) := by
  constructor
  · unfold _load_model_impl _load_model
    rw [hmiss]
    by_cases ha : lang ∈ s.available_languages
    · rw [if_pos ha]
      cases hw : fs.fileExists (modelPath s.models_dir lang) <;>
        simp [hw, loadBodyImpl]
    · rw [if_neg ha]
      simp
  · simp [_load_model_impl, _load_model, loadBodyImpl, fsWeightsOnly, lazyS, modelPath]

theorem load_model_impl_cannot_succeed_witness :
    (_load_model_impl fsWeightsOnly lazyS "kho").1 ≠
      .ok { model_type := "dummy_model", lang := "kho" } :=
  (load_model_impl_cannot_succeed fsWeightsOnly lazyS "kho"
    { model_type := "dummy_model", lang := "kho" } rfl).1

/-- C9: failure isolation.  A lazy resolve that raises leaves the cache (the
whole service state) unchanged, for every load body; and in the eager startup
loader a language whose load attempt fails is simply skipped — deleting it
from the enabled list gives the same cache — while every language whose
attempt succeeds is loaded regardless of the other entries. -/
theorem failed_load_leaves_state_unchanged
    (loadBody : String → Except String LazyModel) (fs fsE : FileSystem)
    (loader : String → Except String ASRModel) (models_dir : String)
    (s : LazyService) (lang : String) (err : LazyError)
    (herr : (_load_model loadBody fs s lang).1 = .error err) :
    (_load_model loadBody fs s lang).2 = s ∧
    (∀ xs ys bad, tryLoadModel fsE loader models_dir bad = none →
      loadEnabled fsE loader models_dir (xs ++ bad :: ys) =
        loadEnabled fsE loader models_dir (xs ++ ys)) ∧
    (∀ langs lang2 m, lang2 ∈ langs →
      tryLoadModel fsE loader models_dir lang2 = some m →
      (lang2, m) ∈ loadEnabled fsE loader models_dir langs) := by
  refine ⟨?_, ?_, ?_⟩
  · rcases _load_model_cases loadBody fs s lang with
      ⟨m, _, hres⟩ | ⟨m, _, _, hres⟩ | ⟨err2, hres⟩ <;>
      rw [hres] at herr ⊢ <;>
      first
      | rfl
      | exact absurd herr (by simp)
  · intro xs ys bad hbad
    simp [loadEnabled, List.filterMap_append, hbad]
  · intro langs lang2 m hmem hload
    simp only [loadEnabled, List.mem_filterMap]
    exact ⟨lang2, hmem, by rw [hload]; rfl⟩

theorem failed_load_leaves_state_unchanged_witness :
    (_load_model loadBodyImpl fsWeightsOnly lazyS "kho").2 = lazyS ∧
    loadEnabled fsFull loader0 "models/asr" (["kho"] ++ "bad" :: ["mni"]) =
      loadEnabled fsFull loader0 "models/asr" (["kho"] ++ ["mni"]) ∧
    ("kho", m0) ∈ loadEnabled fsFull loader0 "models/asr" ["kho", "bad", "mni"] := by
  have h := failed_load_leaves_state_unchanged loadBodyImpl fsWeightsOnly fsFull
    loader0 "models/asr" lazyS "kho" (.modelLoadFailure "kho")
    (by simp [_load_model, loadBodyImpl, fsWeightsOnly, lazyS, modelPath])
  refine ⟨h.1, h.2.1 ["kho"] ["mni"] "bad" ?_, h.2.2 ["kho", "bad", "mni"] "kho" m0
    (by simp) ?_⟩
  · simp [tryLoadModel, fsFull, loader0]
  · simp [tryLoadModel, fsFull, loader0]

/-- C10: invariant of the lazy service.  A resolve never changes the
discovered set; if every cached key is a discovered language this still holds
after the resolve (the only insertion is guarded by the membership check); and
a freshly constructed service has an empty cache. -/
theorem cache_keys_within_discovered_set
    (loadBody : String → Except String LazyModel) (fs : FileSystem)
    (s : LazyService) (lang : String) (config : SRConfig)
    (hinv : ∀ k ∈ keys s.models, k ∈ s.available_languages) :
    (_load_model loadBody fs s lang).2.available_languages = s.available_languages ∧
    (∀ k ∈ keys (_load_model loadBody fs s lang).2.models,
      k ∈ (_load_model loadBody fs s lang).2.available_languages) ∧
    (mkLazyService fs config).models = [] := by
  rcases _load_model_cases loadBody fs s lang with
    ⟨m, _, hres⟩ | ⟨m, _, ha, hres⟩ | ⟨err, hres⟩ <;> rw [hres] <;>
    refine ⟨rfl, ?_, rfl⟩
  · exact hinv
  · intro k hk
    rcases (by simpa [keys] using hk : k = lang ∨ k ∈ keys s.models) with rfl | hk2
    · exact ha
    · exact hinv _ hk2
  · exact hinv

theorem cache_keys_within_discovered_set_witness :
    (_load_model loadBodyImpl fsWeightsOnly lazyS "kho").2.available_languages =
      lazyS.available_languages ∧
    (mkLazyService fsEmpty cfg0).models = [] := by
  have h := cache_keys_within_discovered_set loadBodyImpl fsWeightsOnly lazyS "kho"
    cfg0 (by simp [lazyS, keys])
  exact ⟨h.1, (cache_keys_within_discovered_set loadBodyImpl fsEmpty lazyS "kho" cfg0
    (by simp [lazyS, keys])).2.2⟩

/-! ## Claim theorems: the eager transcription engine and facade -/

/-- C4: `batch_transcribe` returns one slot per input path, in order; the
`i`-th slot is computed from the `i`-th path alone, a failing path yields the
error record `\x7blanguage, error, audio_path\x7d` in its slot, and a
succeeding path yields its result — so no failure aborts the batch or
affects another slot. -/
theorem batch_transcribe_slotwise (fs : FileSystem)
    (decodeAudio : String → Except String (List ℚ)) (e : ℚ → ℚ)
    (s : EagerService) (language : String) (audio_paths : List String) :
    (batch_transcribe fs decodeAudio e s audio_paths language).length =
      audio_paths.length ∧
    (∀ (i : Nat) (p : String), audio_paths[i]? = some p →
      (batch_transcribe fs decodeAudio e s audio_paths language)[i]? =
        some (transcribeSlot fs decodeAudio e s language p)) ∧
    (∀ p r, transcribe fs decodeAudio e s p language = .ok r →
      transcribeSlot fs decodeAudio e s language p = .success r) ∧
    (∀ p err, transcribe fs decodeAudio e s p language = .error err →
      transcribeSlot fs decodeAudio e s language p =
        .failure language (errStr err) p) := by
  refine ⟨by simp [batch_transcribe], ?_, ?_, ?_⟩
  · intro i p hp
    simp [batch_transcribe, List.getElem?_map, hp]
  · intro p r h
    simp [transcribeSlot, h]
  · intro p err h
    simp [transcribeSlot, h]

theorem batch_transcribe_slotwise_witness :
    (batch_transcribe fs0 dec0 e0 s0 ["a.wav", "b.wav"] "kho").length = 2 ∧
    (batch_transcribe fs0 dec0 e0 s0 ["a.wav", "b.wav"] "kho")[0]? =
      some (transcribeSlot fs0 dec0 e0 s0 "kho" "a.wav") ∧
    transcribeSlot fs0 dec0 e0 s0 "kho" "b.wav" =
      .failure "kho" (errStr (.fileNotFound "b.wav")) "b.wav" := by
  have h := batch_transcribe_slotwise fs0 dec0 e0 s0 "kho" ["a.wav", "b.wav"]
  exact ⟨h.1, h.2.1 0 "a.wav" rfl, h.2.2.2 "b.wav" (.fileNotFound "b.wav")
    (by simp [transcribe, fs0, dec0, s0, _load_audio])⟩

/-- C5: in every successful eager transcription the reported `audio_duration`
is the length of the loaded sample buffer divided by the configured
sample rate. -/
theorem audio_duration_eq_length_div_rate (fs : FileSystem)
    (decodeAudio : String → Except String (List ℚ)) (e : ℚ → ℚ)
    (s : EagerService) (audio_path language : String) (samples : List ℚ)
    (r : TranscriptionResult)
    (hla : _load_audio fs decodeAudio audio_path = .ok samples)
    (h : transcribe fs decodeAudio e s audio_path language = .ok r) :
    r.audio_duration = (samples.length : ℚ) / (s.preprocessor.sample_rate : ℚ) := by
  obtain ⟨model, audio_data, features, conf, hm, hla2, hp, hmx, hr⟩ :=
    transcribe_ok_elim fs decodeAudio e s audio_path language r h
  rw [hla] at hla2
  injection hla2 with h2
  rw [hr, h2]

theorem audio_duration_eq_length_div_rate_witness :
    r0.audio_duration =
      ((([0, 1] : List ℚ).length : ℚ) / (s0.preprocessor.sample_rate : ℚ)) := by
  refine audio_duration_eq_length_div_rate fs0 dec0 e0 s0 "a.wav" "kho" [0, 1] r0 ?_ ?_
  · simp [_load_audio, fs0, dec0, normalize, absQ]
    norm_num
  · simp [transcribe, fs0, dec0, e0, s0, m0, pre0, r0, _load_audio, normalize, absQ,
      softmaxWith, tensorMax, metaField]
    norm_num

/-- C6: the confidence of every successful transcription lies in the closed
interval [0,1]: in the eager service it is the greatest entry of the softmax
of the score distribution of the model (the exponential abstracted to any
strictly positive function), and in the lazy service it is the constant
`0.95`. -/
theorem confidence_in_unit_interval (fs : FileSystem)
    (decodeAudio : String → Except String (List ℚ)) (e : ℚ → ℚ)
    (s : EagerService) (audio_path language : String) (r : TranscriptionResult)
    (loadBody : String → Except String LazyModel) (fs2 : FileSystem)
    (ls : LazyService) (audio_path2 language2 : String)
    (he : ∀ x, 0 < e x)
    (h : transcribe fs decodeAudio e s audio_path language = .ok r) :
    (0 ≤ r.confidence ∧ r.confidence ≤ 1) ∧
    (∀ res s2, lazyTranscribe loadBody fs2 ls audio_path2 language2 = (.ok res, s2) →
      0 ≤ res.confidence ∧ res.confidence ≤ 1) := by
  constructor
  · obtain ⟨model, audio_data, features, conf, hm, hla, hp, hmx, hr⟩ :=
      transcribe_ok_elim fs decodeAudio e s audio_path language r h
    have hc : conf ∈ softmaxWith e (model.infer features) := tensorMax_mem hmx
    have hb := softmaxWith_mem_unit_interval e he (model.infer features) conf hc
    rw [hr]
    exact hb
  · intro res s2 hres
    unfold lazyTranscribe at hres
    rcases hl : _load_model loadBody fs2 ls language2 with ⟨r2, s3⟩
    rw [hl] at hres
    cases r2 with
    | error err => exact absurd hres (by simp)
    | ok m =>
      simp only [Prod.mk.injEq, Except.ok.injEq] at hres
      rw [← hres.1]
      norm_num

theorem confidence_in_unit_interval_witness :
    (0 ≤ r0.confidence ∧ r0.confidence ≤ 1) ∧
    (0 ≤ (95 / 100 : ℚ) ∧ (95 / 100 : ℚ) ≤ 1) := by
  have h := confidence_in_unit_interval fs0 dec0 e0 s0 "a.wav" "kho" r0
    (fun lang_code => .ok { model_type := "dummy_model", lang := lang_code })
    fsWeightsOnly lazyS "x.wav" "kho" (fun x => by simp [e0])
    (by simp [transcribe, fs0, dec0, e0, s0, m0, pre0, r0, _load_audio, normalize, absQ,
          softmaxWith, tensorMax, metaField]
        norm_num)
  refine ⟨h.1, ?_⟩
  have h2 := h.2
    (⟨"kho", "This is a dummy transcription for " ++ "kho" ++ ".", 95 / 100, 21 / 2⟩ :
      LazyTranscription)
    (⟨[("kho", ⟨"dummy_model", "kho"⟩)], ["kho"], "models/asr"⟩ : LazyService)
    (by simp [lazyTranscribe, _load_model, fsWeightsOnly, lazyS, modelPath])
  exact h2

/-- C7: a loaded language with no metadata entry still appears in
`get_supported_languages`, with `name` equal to its code, `family`, `script`
and `endangerment_level` equal to "Unknown" and `regions` empty; the listing
is a total function, so it cannot raise. -/
theorem missing_metadata_degrades_gracefully (s : EagerService) (lang : String)
    (hmeta : List.lookup lang s.languages_metadata = none)
    (hmem : lang ∈ keys s.models) :
    langInfoFor s.languages_metadata lang =
      { code := lang, name := lang, family := "Unknown", script := "Unknown",
        endangerment_level := "Unknown", regions := [] } ∧
    langInfoFor s.languages_metadata lang ∈ get_supported_languages s := by
  constructor
  · simp [langInfoFor, hmeta, metaField]
  · simp only [get_supported_languages, List.mem_map]
    obtain ⟨p, hp, hfst⟩ := List.mem_map.mp hmem
    exact ⟨p, hp, by rw [hfst]⟩

theorem missing_metadata_degrades_gracefully_witness :
    langInfoFor s0.languages_metadata "kho" =
      { code := "kho", name := "kho", family := "Unknown", script := "Unknown",
        endangerment_level := "Unknown", regions := [] } ∧
    langInfoFor s0.languages_metadata "kho" ∈ get_supported_languages s0 :=
  missing_metadata_degrades_gracefully s0 "kho" rfl (by simp [s0, keys])

/-- C8: `is_healthy` is true exactly when at least one model is loaded: a
service constructed over an empty model directory (with no explicitly enabled
languages) is unhealthy, and any service holding at least one loaded model is
healthy. -/
theorem is_healthy_iff_some_model_loaded (s s2 : EagerService) (fs : FileSystem)
    (loader : String → Except String ASRModel)
    (parse : String → Except String (List (String × LangMetadata)))
    (process : List ℚ → Except String (List (List ℚ))) (config : SRConfig)
    (lang : String) (m : ASRModel)
    (hen : config.enabled_languages = [])
    (hsub : fs.subdirs config.models_dir = [])
    (hmem : (lang, m) ∈ s2.models) :
    (is_healthy s = true ↔ s.models ≠ []) ∧
    is_healthy (mkService fs loader parse process config) = false ∧
    is_healthy s2 = true := by
  refine ⟨?_, ?_, ?_⟩
  · rw [is_healthy, decide_eq_true_iff]
    exact ⟨fun h => List.ne_nil_of_length_pos h,
      fun h => List.length_pos.mpr h⟩
  · cases hd : fs.dirExists config.models_dir <;>
      simp [is_healthy, mkService, _load_models, loadEnabled, hen, hsub, hd]
  · rw [is_healthy, decide_eq_true_eq]
    exact List.length_pos.mpr (List.ne_nil_of_mem hmem)

theorem is_healthy_iff_some_model_loaded_witness :
    is_healthy (mkService fsEmpty loader0 parse0 (fun xs => .ok [xs]) cfg0) = false ∧
    is_healthy s0 = true := by
  have h := is_healthy_iff_some_model_loaded s0 s0 fsEmpty loader0 parse0
    (fun xs => .ok [xs]) cfg0 "kho" m0 rfl rfl (by simp [s0])
  exact ⟨h.2.1, h.2.2⟩

end LipiPala
